import Mathlib

/-!
Shallow embedding of `src/generate/constrain/__init__.py` and
`src/generate/constrain/logit_utils.py` (the structural-grammar enforcer
for constrained LLM decoding), together with theorems settling the
specification claims about it.

Modelling conventions:
* Python `str` is embedded as `List Char` (a Python string is a sequence
  of code points).
* Torch float score buffers are embedded as `List (List (WithBot ℚ))`
  (2-D: batch × vocab); `⊥ : WithBot ℚ` plays the role of `-inf` and
  ordinary rationals the finite floats.  The claims never involve NaN or
  rounding, only `-inf`, `0.0` and order comparisons, which `WithBot ℚ`
  models exactly.
* Fallible Python code (`raise ValueError`) is embedded as
  `Except String _`.
* `str.splitlines` is modelled for `\n` line breaks (the only line
  break occurring in the enforcer's markers and in tokenizer output of
  interest); `str.strip` for the ASCII whitespace characters.
* The tokenizer collaborator is an explicit structure of functions.
-/

/-- Decidable equality on `Except`, so concrete runs of the fallible
embedded functions can be checked with `decide`. -/
instance exceptDecEq {ε α : Type} [DecidableEq ε] [DecidableEq α] :
    DecidableEq (Except ε α) := fun
  | .ok a, .ok b =>
      if h : a = b then .isTrue (by rw [h]) else .isFalse (by simp [h])
  | .ok _, .error _ => .isFalse (by simp)
  | .error _, .ok _ => .isFalse (by simp)
  | .error e, .error f =>
      if h : e = f then .isTrue (by rw [h]) else .isFalse (by simp [h])

namespace Constrain

/-- Python `str.splitlines(keepends=False)` restricted to `\n` line
breaks: accumulate the current line, emit it at each newline, and emit
whatever is left at the end (the final element is dropped again by
`splitLines` when the text ends in a newline, matching Python). -/
def splitLinesAux : List Char → List Char → List (List Char)
  | [], acc => [acc]
  | c :: rest, acc =>
    if c = '\n' then acc :: splitLinesAux rest []
    else splitLinesAux rest (acc ++ [c])

/-- Python `text.splitlines()`: `""` gives `[]`, a trailing newline does
not produce a trailing empty line. -/
def splitLines (text : List Char) : List (List Char) :=
  let r := splitLinesAux text []
  if r.getLast? = some [] then r.dropLast else r

/-- Whitespace characters recognised by Python's `str.strip()` (ASCII). -/
def isPySpace (c : Char) : Bool :=
  c = ' ' || c = '\t' || c = '\n' || c = '\r' || c = '\x0b' || c = '\x0c'

/-- Python `s.strip()`: drop whitespace from both ends. -/
def pyStrip (l : List Char) : List Char :=
  ((l.dropWhile isPySpace).reverse.dropWhile isPySpace).reverse

/-- Python substring containment `sub in text`. -/
def containsSub (sub : List Char) : List Char → Bool
  | [] => sub.isEmpty
  | c :: rest => sub.isPrefixOf (c :: rest) || containsSub sub rest

/-- `CODE_START = "```python\n"`. -/
def CODE_START : List Char := "```python\n".toList

/-- `CODE_START_LINE = "```python"`. -/
def CODE_START_LINE : List Char := "```python".toList

/-- The states of the enforcer's grammar automaton. -/
inductive State where
  | START
  | THOUGHT_CONTENT
  | ACTION_OPEN
  | ACTION_CONTENT
  | CODE_FENCE_START
  | CODE_CONTENT
  | DONE
deriving DecidableEq, Repr

/-- Index of the first line that strips to `CODE_START_LINE`
(the `for i, line in enumerate(lines)` search in
`prefix_before_code_fence` and `code_block_status`). -/
def findFence : List (List Char) → Option Nat
  | [] => none
  | l :: rest =>
    if pyStrip l = CODE_START_LINE then some 0
    else (findFence rest).map (· + 1)

/-- `_split_lines`: `text.splitlines(keepends=False) if text else []`. -/
def _split_lines (text : List Char) : List (List Char) :=
  if text.isEmpty then [] else splitLines text

/-- Python `"\n".join(lines)`. -/
def joinLines : List (List Char) → List Char
  | [] => []
  | [l] => l
  | l :: l' :: rest => l ++ '\n' :: joinLines (l' :: rest)

/-- `prefix_before_code_fence`: the part of `text` before the first
```` ```python ```` fence line, or the whole text when there is none. -/
def prefix_before_code_fence (text : List Char) : List Char :=
  let lines := _split_lines text
  match findFence lines with
  | some i => joinLines (lines.take i)
  | none => text

/-- A closing fence line: `line.startswith("```") and not line[3:].strip()`. -/
def isCloseFence (l : List Char) : Bool :=
  "```".toList.isPrefixOf l && (pyStrip (l.drop 3)).isEmpty

/-- Index of the first closing fence line (the scan inside
`code_block_status`). -/
def findClose : List (List Char) → Option Nat
  | [] => none
  | l :: rest =>
    if isCloseFence l then some 0
    else (findClose rest).map (· + 1)

/-- A non-blank line: `l.strip()` is truthy. -/
def nonBlank (l : List Char) : Bool := !(pyStrip l).isEmpty

/-- `code_block_status(text) = (has_content, should_end)`. -/
def code_block_status (text : List Char) : Bool × Bool :=
  if text.isEmpty then (false, false)
  else
    let lines_all := splitLines text
    match findFence lines_all with
    | none => (false, false)
    | some start_idx =>
      let lines := lines_all.drop (start_idx + 1)
      match findClose lines with
      | some i => ((lines.take i).any nonBlank, true)
      | none => (lines.any nonBlank, false)

/-- The transition policy's result: next state plus optional text to
force. -/
structure Transition where
  new_state : State
  force_text : Option (List Char) := none
deriving DecidableEq, Repr

/-- `decide_next(state, generated_text)`: tag detection only looks at
the prefix before the code fence; `CODE_CONTENT` inspects the full
text. -/
def decide_next (state : State) (generated_text : List Char) : Transition :=
  let safe_text := prefix_before_code_fence generated_text
  if state = State.START then
    ⟨State.THOUGHT_CONTENT, some "<thought>".toList⟩
  else if state = State.THOUGHT_CONTENT ∧ containsSub "</thought>".toList safe_text then
    ⟨State.ACTION_OPEN, some "\n<action>".toList⟩
  else if state = State.ACTION_OPEN then
    ⟨State.ACTION_CONTENT, none⟩
  else if state = State.ACTION_CONTENT ∧ containsSub "</action>".toList safe_text then
    ⟨State.CODE_FENCE_START, some ('\n' :: CODE_START)⟩
  else if state = State.CODE_FENCE_START then
    ⟨State.CODE_CONTENT, none⟩
  else if state = State.CODE_CONTENT ∧
      (code_block_status generated_text).1 ∧ (code_block_status generated_text).2 then
    ⟨State.DONE, some "\n".toList⟩
  else
    ⟨state, none⟩

/-- A 2-D score buffer (batch × vocab); `⊥` models `-inf`. -/
abbrev Scores := List (List (WithBot ℚ))

/-- `force_token(scores, token_id)` from `constrain/__init__.py`:
check `scores` is 2-D (intrinsic to the `Scores` type) with batch size 1
and `token_id` in `[0, vocab)`, then `fill_(-inf)` and set the
`token_id` entry to `0`.  `token_id` is a Python `int`, hence `ℤ`. -/
def force_token (scores : Scores) (token_id : ℤ) : Except String Scores :=
  if scores.length ≠ 1 then
    .error "batch_size must be 1"
  else
    let vocab := (scores.headD []).length
    if 0 ≤ token_id ∧ token_id < (vocab : ℤ) then
      .ok [((scores.headD []).map (fun _ => (⊥ : WithBot ℚ))).set token_id.toNat (0 : WithBot ℚ)]
    else
      .error "token_id out of range"

namespace logit_utils

/-- `force_token(scores, token_id)` from `constrain/logit_utils.py`:
no batch-size-1 restriction; fills the whole batch.  (A torch 2-D
tensor has uniform row length, so `scores.size(-1)` is the length of
the first row.) -/
def force_token (scores : Scores) (token_id : ℤ) : Except String Scores :=
  let vocab := (scores.headD []).length
  if 0 ≤ token_id ∧ token_id < (vocab : ℤ) then
    .ok (scores.map (fun row =>
      (row.map (fun _ => (⊥ : WithBot ℚ))).set token_id.toNat (0 : WithBot ℚ)))
  else
    .error "token_id out of range"

end logit_utils

/-- The tokenizer collaborator: `encode` (no special tokens), `decode`,
and a constant end-of-sequence id. -/
structure Tok where
  encode : List Char → List Nat
  decode : List Nat → List Char
  eos : Nat

/-- The mutable per-sequence fields of `StructuredEnforcer`
(`_token_history` is debug-only logging and is not modelled). -/
structure EnforcerState where
  state : State
  start_pos : Option Nat
  force_queue : List Nat
deriving DecidableEq, Repr

/-- A freshly constructed enforcer: state `START`, no recorded start
position, empty force queue. -/
def initEnforcer : EnforcerState := ⟨State.START, none, []⟩

/-- `scores[0, j] = -inf` on a 2-D buffer. -/
def setEos (scores : Scores) (j : Nat) : Scores :=
  scores.set 0 ((scores.headD []).set j (⊥ : WithBot ℚ))

/-- The `while True:` loop body of `StructuredEnforcer.__call__`,
with explicit fuel standing for the iteration count (the source loop is
syntactically unbounded; `callLoop_fuel_enough` below shows seven
iterations always suffice, so the fuel-exhausted `none` is unreachable
for fuel ≥ 7).  Returns the final `(state, force_queue, scores)`, or a
`ValueError` from `force_token`. -/
def callLoop (tok : Tok) : Nat → State → List Nat → List Char → Scores →
    Option (Except String (State × List Nat × Scores))
  | 0, _, _, _, _ => none
  | fuel + 1, st, queue, text, scores =>
    -- Default: forbid EOS unless we deterministically finish.
    let scores := setEos scores tok.eos
    match queue with
    | t :: rest =>
      -- 1) Apply forced token if queued.
      some ((force_token scores (t : ℤ)).map (fun s => (st, rest, s)))
    | [] =>
      -- 2) Policy: decide if we should transition and/or enqueue.
      let tr := decide_next st text
      if tr.new_state ≠ st then
        -- `if tr.force_text:` — Python truthiness: None and "" are falsy.
        let queue' := match tr.force_text with
          | some ft => if ft.isEmpty then [] else tok.encode ft
          | none => []
        callLoop tok fuel tr.new_state queue' text scores
      else if st = State.DONE then
        -- 3) If DONE, force EOS.
        some ((force_token scores (tok.eos : ℤ)).map (fun s => (st, [], s)))
      else
        -- 4) Stable: allow model to proceed.
        some (.ok (st, [], scores))

/-- Decoding of the assistant-generated suffix in
`StructuredEnforcer.__call__`: `input_ids[0, start_pos:]` decoded when
non-empty, else `""` (the walrus `if generated_tokens := ...`). -/
def genText (tok : Tok) (start_pos : Nat) (input_ids : List (List Nat)) : List Char :=
  let generated_tokens := (input_ids.headD []).drop start_pos
  if generated_tokens.isEmpty then [] else tok.decode generated_tokens

/-- `StructuredEnforcer.__call__`: batch-size check, `start_pos`
recording, decoding of the generated suffix, then the inner loop
(run here with fuel 10, the spec's iteration cap; by `claim_C5` the
cap is never hit). -/
def enforcerCall (tok : Tok) (es : EnforcerState) (input_ids : List (List Nat))
    (scores : Scores) : Except String (EnforcerState × Scores) :=
  if input_ids.length ≠ 1 ∨ scores.length ≠ 1 then
    .error "StructuredEnforcer supports batch_size=1 only"
  else
    let start_pos := es.start_pos.getD (input_ids.headD []).length
    match callLoop tok 10 es.state es.force_queue (genText tok start_pos input_ids) scores with
    | none => .error "inner loop iteration cap exceeded"
    | some (.error e) => .error e
    | some (.ok (st, q, sc)) => .ok (⟨st, some start_pos, q⟩, sc)

/-!  A concrete instantiation of the collaborator contracts of the spec,
used to drive end-to-end scenarios: a character-level tokenizer (token
id = code point, ids 0–127; end-of-sequence id 128, vocabulary 129). -/

/-- Character-level tokenizer: `encode` maps each character to its code
point, `decode` inverts it; end-of-sequence id is 128. -/
def charTok : Tok :=
  ⟨fun s => s.map Char.toNat, fun ts => ts.map Char.ofNat, 128⟩

/-- The raw model scores the simulated generation loop offers each
step: every token equally likely (score 0). -/
def freeRow : List (WithBot ℚ) := List.replicate 129 (0 : WithBot ℚ)

/-- The sampler of the simulated generation loop: when the returned
buffer has exactly one non-`-inf` entry (a forced step) it must pick
that token; otherwise the model is free and `none` is returned. -/
def pickForced (row : List (WithBot ℚ)) : Option Nat :=
  match (List.range row.length).filter (fun j => row.getD j ⊥ ≠ ⊥) with
  | [j] => some j
  | _ => none

/-- A tokenizer within the spec's collaborator contract that provably
never emits the end-of-sequence id from `encode` (ids are code points
reduced mod 128, end-of-sequence is 128). -/
def asciiTok : Tok :=
  ⟨fun s => s.map (fun c => c.toNat % 128), fun ts => ts.map Char.ofNat, 128⟩

/-- A tokenizer within the spec's collaborator contract whose encoding
of the newline is two tokens long (ids 5 and 6); decoding is by code
point.  Used to probe the draining of trailing forced text after the
transition to `DONE`. -/
def twoNlTok : Tok :=
  ⟨fun s => if s = "\n".toList then [5, 6] else s.map Char.toNat,
   fun ts => ts.map Char.ofNat, 128⟩

/-- A generation loop upholding the calling contract of the spec: each
step it hands the enforcer the full token history and a fresh score
buffer, samples from the returned buffer (accepting every forced token
verbatim; on free steps it plays the next scripted model choice), and
appends the chosen token to the history.  It stops with the final
history once the end-of-sequence token is chosen, and gives up (`none`)
if the step budget or the script runs out first. -/
def runLoop (tok : Tok) (free : List (WithBot ℚ)) :
    Nat → EnforcerState → List Nat → List Nat → Option (List Nat)
  | 0, _, _, _ => none
  | n + 1, es, history, script =>
    match enforcerCall tok es [history] [free] with
    | .error _ => none
    | .ok (es', buf) =>
      match pickForced (buf.headD []) with
      | some j =>
        if j = tok.eos then some (history ++ [j])
        else runLoop tok free n es' (history ++ [j]) script
      | none =>
        match script with
        | s :: rest => runLoop tok free n es' (history ++ [s]) rest
        | [] => none

/-!  ## Lemmas about the transition policy -/

/-- Position of a state in the fixed forward order
`Start, ThoughtContent, ActionOpen, ActionContent, CodeFenceStart,
CodeContent, Done`. -/
def State.idx : State → Nat
  | .START => 0
  | .THOUGHT_CONTENT => 1
  | .ACTION_OPEN => 2
  | .ACTION_CONTENT => 3
  | .CODE_FENCE_START => 4
  | .CODE_CONTENT => 5
  | .DONE => 6

theorem State.idx_le_six (s : State) : s.idx ≤ 6 := by
  cases s <;> simp [State.idx]

theorem decide_next_done (t : List Char) :
    decide_next State.DONE t = ⟨State.DONE, none⟩ := by
  simp [decide_next]

theorem decide_next_le (s : State) (t : List Char) :
    s.idx ≤ (decide_next s t).new_state.idx := by
  cases s <;> simp [decide_next, State.idx] <;> split_ifs <;> simp [State.idx]

theorem decide_next_strict (s : State) (t : List Char)
    (h : (decide_next s t).new_state ≠ s) :
    s.idx < (decide_next s t).new_state.idx := by
  cases s <;> revert h <;> simp [decide_next, State.idx] <;>
    split_ifs <;> simp [State.idx]

/-!  ## Lemmas about the inner `while True` loop -/

theorem callLoop_cons (tok : Tok) (fuel : Nat) (st : State) (tk : Nat)
    (rest : List Nat) (t : List Char) (sc : Scores) :
    callLoop tok (fuel + 1) st (tk :: rest) t sc
      = some ((force_token (setEos sc tok.eos) (tk : ℤ)).map
          (fun s => (st, rest, s))) := rfl

theorem callLoop_nil (tok : Tok) (fuel : Nat) (st : State) (t : List Char)
    (sc : Scores) :
    callLoop tok (fuel + 1) st [] t sc
      = (if (decide_next st t).new_state ≠ st then
          callLoop tok fuel (decide_next st t).new_state
            (match (decide_next st t).force_text with
              | some ft => if ft.isEmpty then [] else tok.encode ft
              | none => []) t (setEos sc tok.eos)
        else if st = State.DONE then
          some ((force_token (setEos sc tok.eos) (tok.eos : ℤ)).map
            (fun s => (st, [], s)))
        else some (.ok (st, [], setEos sc tok.eos))) := rfl

theorem callLoop_isSome (tok : Tok) :
    ∀ (fuel : Nat) (st : State) (q : List Nat) (t : List Char) (sc : Scores),
      7 - st.idx ≤ fuel → (callLoop tok fuel st q t sc).isSome := by
  intro fuel
  induction fuel with
  | zero =>
    intro st q t sc h
    have := State.idx_le_six st
    omega
  | succ n ih =>
    intro st q t sc h
    cases q with
    | cons tk rest => simp [callLoop]
    | nil =>
      simp only [callLoop]
      split_ifs with hne hdone
      · apply ih
        have h1 := decide_next_strict st t hne
        omega
      · simp
      · simp

theorem callLoop_mono (tok : Tok) :
    ∀ (f f' : Nat), f ≤ f' →
      ∀ (st : State) (q : List Nat) (t : List Char) (sc : Scores) r,
        callLoop tok f st q t sc = some r → callLoop tok f' st q t sc = some r := by
  intro f
  induction f with
  | zero => intro f' _ st q t sc r h; simp [callLoop] at h
  | succ n ih =>
    intro f' hle st q t sc r h
    cases f' with
    | zero => omega
    | succ m =>
      simp only [callLoop] at h ⊢
      cases q with
      | cons tk rest => exact h
      | nil =>
        split_ifs at h ⊢ with hne hdone
        · exact ih m (by omega) _ _ _ _ _ h
        · exact h
        · exact h

theorem callLoop_state_mono (tok : Tok) :
    ∀ (f : Nat) (st : State) (q : List Nat) (t : List Char) (sc : Scores)
      (st' : State) (q' : List Nat) (sc' : Scores),
      callLoop tok f st q t sc = some (.ok (st', q', sc')) → st.idx ≤ st'.idx := by
  intro f
  induction f with
  | zero => intro st q t sc st' q' sc' h; simp [callLoop] at h
  | succ n ih =>
    intro st q t sc st' q' sc' h
    simp only [callLoop] at h
    cases q with
    | cons tk rest =>
      cases hft : force_token (setEos sc tok.eos) (tk : ℤ) with
      | ok s =>
        simp [hft, Except.map] at h
        exact h.1 ▸ le_refl _
      | error e => simp [hft, Except.map] at h
    | nil =>
      split_ifs at h with hne hdone
      · have h1 := decide_next_le st t
        have h2 := ih _ _ _ _ _ _ _ h
        omega
      · cases hft : force_token (setEos sc tok.eos) (tok.eos : ℤ) with
        | ok s =>
          simp [hft, Except.map] at h
          exact h.1 ▸ le_refl _
        | error e => simp [hft, Except.map] at h
      · simp at h
        exact h.1 ▸ le_refl _

theorem force_token_error (sc : Scores) (tid : ℤ) (e : String)
    (h : force_token sc tid = .error e) :
    e = "batch_size must be 1" ∨ e = "token_id out of range" := by
  unfold force_token at h
  split_ifs at h with h1
  · exact Or.inl (by injection h with h'; exact h'.symm)
  · simp only [] at h
    split_ifs at h with h2
    exact Or.inr (by simpa using h.symm)

theorem callLoop_error (tok : Tok) :
    ∀ (f : Nat) (st : State) (q : List Nat) (t : List Char) (sc : Scores) (e : String),
      callLoop tok f st q t sc = some (.error e) →
      e = "batch_size must be 1" ∨ e = "token_id out of range" := by
  intro f
  induction f with
  | zero => intro st q t sc e h; simp [callLoop] at h
  | succ n ih =>
    intro st q t sc e h
    simp only [callLoop] at h
    cases q with
    | cons tk rest =>
      cases hft : force_token (setEos sc tok.eos) (tk : ℤ) with
      | ok s => simp [hft, Except.map] at h
      | error e' =>
        simp [hft, Except.map] at h
        exact h ▸ force_token_error _ _ _ hft
    | nil =>
      split_ifs at h with hne hdone
      · exact ih _ _ _ _ _ h
      · cases hft : force_token (setEos sc tok.eos) (tok.eos : ℤ) with
        | ok s => simp [hft, Except.map] at h
        | error e' =>
          simp [hft, Except.map] at h
          exact h ▸ force_token_error _ _ _ hft
      · simp at h

/-- C5: every single orchestrator call terminates.  The inner
re-evaluation loop of `StructuredEnforcer.__call__` (pop forced token,
or transition and enqueue, or return) is bounded: seven iterations
always produce a result, giving more fuel never changes it, and an
orchestrator call (which runs the loop with the spec's cap of 10)
never reports the iteration cap exceeded. -/
theorem claim_C5 (tok : Tok) (st : State) (q : List Nat) (t : List Char)
    (sc : Scores) (es : EnforcerState) (ids : List (List Nat)) (scores : Scores) :
    (callLoop tok 7 st q t sc).isSome ∧
    (∀ fuel, 7 ≤ fuel → callLoop tok fuel st q t sc = callLoop tok 7 st q t sc) ∧
    enforcerCall tok es ids scores ≠ .error "inner loop iteration cap exceeded" := by
  have hbound : ∀ (s : State), 7 - s.idx ≤ 7 := fun s => by omega
  refine ⟨callLoop_isSome tok 7 st q t sc (hbound st), ?_, ?_⟩
  · intro fuel hfuel
    obtain ⟨r, hr⟩ := Option.isSome_iff_exists.mp
      (callLoop_isSome tok 7 st q t sc (hbound st))
    rw [hr, callLoop_mono tok 7 fuel hfuel st q t sc r hr]
  · simp only [enforcerCall]
    split_ifs with hb
    · simp
    · split
      next heq =>
        have hs := callLoop_isSome tok 10 es.state es.force_queue
          (genText tok (es.start_pos.getD (ids.headD []).length) ids) scores
          (by have := State.idx_le_six es.state; omega)
        rw [heq] at hs
        simp at hs
      next e heq =>
        have := callLoop_error tok 10 _ _ _ _ _ heq
        rcases this with h | h <;> simp [h]
      next st3 q3 sc3 heq => simp

theorem claim_C5_witness :
    (callLoop charTok 7 State.START [] [] [freeRow]).isSome ∧
    callLoop charTok 8 State.START [] [] [freeRow]
      = callLoop charTok 7 State.START [] [] [freeRow] ∧
    enforcerCall charTok initEnforcer [[]] [freeRow]
      ≠ .error "inner loop iteration cap exceeded" :=
  ⟨(claim_C5 charTok State.START [] [] [freeRow] initEnforcer [[]] [freeRow]).1,
   (claim_C5 charTok State.START [] [] [freeRow] initEnforcer [[]] [freeRow]).2.1 8
     (by norm_num),
   (claim_C5 charTok State.START [] [] [freeRow] initEnforcer [[]] [freeRow]).2.2⟩

/-- C4: for every state `s` and text `t`, `decide_next s t` stays at
`s` or moves strictly later in the fixed order (its position index
never decreases); `Done` is terminal with no forced text; and across
orchestrator calls the per-sequence state never regresses. -/
theorem claim_C4 :
    (∀ (s : State) (t : List Char), s.idx ≤ (decide_next s t).new_state.idx) ∧
    (∀ t : List Char, decide_next State.DONE t = ⟨State.DONE, none⟩) ∧
    (∀ (tok : Tok) (es : EnforcerState) (ids : List (List Nat)) (sc : Scores)
      (es' : EnforcerState) (sc' : Scores),
      enforcerCall tok es ids sc = .ok (es', sc') → es.state.idx ≤ es'.state.idx) := by
  refine ⟨decide_next_le, decide_next_done, ?_⟩
  intro tok es ids sc es' sc' h
  simp only [enforcerCall] at h
  split_ifs at h with hb
  split at h
  next heq => simp at h
  next e heq => simp at h
  next st3 q3 sc3 heq =>
    simp only [Except.ok.injEq, Prod.mk.injEq] at h
    rw [← h.1]
    exact callLoop_state_mono tok 10 _ _ _ _ _ _ _ heq

set_option maxRecDepth 40000 in
theorem claim_C4_witness :
    initEnforcer.state.idx ≤
      (⟨State.THOUGHT_CONTENT, some 0, "thought>".toList.map Char.toNat⟩ :
        EnforcerState).state.idx :=
  claim_C4.2.2 charTok initEnforcer [[]] [freeRow]
    ⟨State.THOUGHT_CONTENT, some 0, "thought>".toList.map Char.toNat⟩
    [((List.replicate 129 (⊥ : WithBot ℚ))).set 60 (0 : WithBot ℚ)] (by decide)

/-!  ## Score-buffer lemmas and the `force_token` claims -/

theorem getD_map_const (l : List (WithBot ℚ)) (j : Nat) :
    (l.map (fun _ => (⊥ : WithBot ℚ))).getD j ⊥ = ⊥ := by
  rw [List.getD_eq_getElem?_getD, List.getElem?_map]
  cases l[j]? <;> simp

theorem getD_const_set_ne (l : List (WithBot ℚ)) (i j : Nat) (v : WithBot ℚ)
    (h : j ≠ i) :
    ((l.map (fun _ => (⊥ : WithBot ℚ))).set i v).getD j ⊥ = ⊥ := by
  rw [List.getD_eq_getElem?_getD, List.getElem?_set_ne (Ne.symm h),
    ← List.getD_eq_getElem?_getD]
  exact getD_map_const l j

theorem getD_set_self_lt (l : List (WithBot ℚ)) (i : Nat) (v : WithBot ℚ)
    (h : i < l.length) :
    (l.set i v).getD i ⊥ = v := by
  rw [List.getD_eq_getElem?_getD, List.getElem?_set_self h]
  rfl

/-- C8: on a one-row buffer with an in-range id, `force_token` from
`constrain/__init__.py` succeeds, sets the `token_id` entry to `0`,
sets every other entry to `-inf`, and the resulting buffer's strict
maximum is exactly at `token_id`. -/
theorem claim_C8 (row : List (WithBot ℚ)) (token_id : ℤ)
    (h0 : 0 ≤ token_id) (h1 : token_id < (row.length : ℤ)) :
    force_token [row] token_id =
      .ok [(row.map (fun _ => (⊥ : WithBot ℚ))).set token_id.toNat (0 : WithBot ℚ)] ∧
    ((row.map (fun _ => (⊥ : WithBot ℚ))).set token_id.toNat (0 : WithBot ℚ)).getD
        token_id.toNat ⊥ = (0 : WithBot ℚ) ∧
    (∀ j, j ≠ token_id.toNat →
      ((row.map (fun _ => (⊥ : WithBot ℚ))).set token_id.toNat (0 : WithBot ℚ)).getD j ⊥
        = ⊥) ∧
    (∀ j, j ≠ token_id.toNat →
      ((row.map (fun _ => (⊥ : WithBot ℚ))).set token_id.toNat (0 : WithBot ℚ)).getD j ⊥ <
      ((row.map (fun _ => (⊥ : WithBot ℚ))).set token_id.toNat (0 : WithBot ℚ)).getD
        token_id.toNat ⊥) := by
  have hlt : token_id.toNat < row.length := by omega
  have hset : ((row.map (fun _ => (⊥ : WithBot ℚ))).set token_id.toNat
      (0 : WithBot ℚ)).getD token_id.toNat ⊥ = (0 : WithBot ℚ) :=
    getD_set_self_lt _ _ _ (by simpa using hlt)
  refine ⟨?_, hset, fun j hj => getD_const_set_ne _ _ _ _ hj, fun j hj => ?_⟩
  · simp [force_token, h0, h1]
  · rw [hset, getD_const_set_ne _ _ _ _ hj]
    decide

theorem claim_C8_witness :
    ((0 : ℤ) ≤ 1 ∧ (1 : ℤ) <
      (([((2:ℚ) : WithBot ℚ), ((3:ℚ) : WithBot ℚ), ((5:ℚ) : WithBot ℚ)].length : Nat) : ℤ)) ∧
    force_token [[((2:ℚ) : WithBot ℚ), ((3:ℚ) : WithBot ℚ), ((5:ℚ) : WithBot ℚ)]] 1 =
      .ok [([((2:ℚ) : WithBot ℚ), ((3:ℚ) : WithBot ℚ), ((5:ℚ) : WithBot ℚ)].map
        (fun _ => (⊥ : WithBot ℚ))).set (1 : ℤ).toNat (0 : WithBot ℚ)] :=
  ⟨⟨by decide, by decide⟩,
   (claim_C8 [((2:ℚ) : WithBot ℚ), ((3:ℚ) : WithBot ℚ), ((5:ℚ) : WithBot ℚ)] 1
     (by decide) (by decide)).1⟩

/-- C10: on a one-row 2-D buffer, the `force_token` of
`constrain/__init__.py` and the `force_token` of
`constrain/logit_utils.py` agree: both fail exactly when the id is out
of `[0, vocab)`, and otherwise both return the same mutated buffer. -/
theorem claim_C10 (row : List (WithBot ℚ)) (token_id : ℤ) :
    (force_token [row] token_id).toOption
      = (logit_utils.force_token [row] token_id).toOption ∧
    ((force_token [row] token_id).toOption.isSome ↔
      0 ≤ token_id ∧ token_id < (row.length : ℤ)) := by
  by_cases h : 0 ≤ token_id ∧ token_id < (row.length : ℤ) <;>
    simp [force_token, logit_utils.force_token, Except.toOption, h]

/-!  ## The code-block policy claim -/

/-- C3: `decide_next(CodeContent, t)` yields `Done` only when
`code_block_status t` reports content; whenever `has_content` is false
(in particular for a closed fence with no non-blank inner line) the
state stays `CodeContent` with nothing forced. -/
theorem claim_C3 (t : List Char) :
    ((decide_next State.CODE_CONTENT t).new_state = State.DONE →
      (code_block_status t).1 = true) ∧
    ((code_block_status t).1 = false →
      decide_next State.CODE_CONTENT t = ⟨State.CODE_CONTENT, none⟩) := by
  cases hb1 : (code_block_status t).1 <;> cases hb2 : (code_block_status t).2 <;>
    constructor <;> intro h <;> simp_all [decide_next]

theorem claim_C3_witness :
    decide_next State.CODE_CONTENT "```python\n\n```".toList
      = ⟨State.CODE_CONTENT, none⟩ :=
  (claim_C3 "```python\n\n```".toList).2 (by decide)

/-!  ## Scanner lemmas: line splitting, joining, fence search -/

theorem splitLinesAux_no_nl (cs : List Char) :
    ∀ (acc : List Char), '\n' ∉ acc → ∀ x ∈ splitLinesAux cs acc, '\n' ∉ x := by
  induction cs with
  | nil =>
    intro acc hacc x hx
    simp [splitLinesAux] at hx
    exact hx ▸ hacc
  | cons c rest ih =>
    intro acc hacc x hx
    simp only [splitLinesAux] at hx
    by_cases hc : c = '\n'
    · rw [if_pos hc] at hx
      rcases List.mem_cons.mp hx with h | h
      · exact h ▸ hacc
      · exact ih [] (by simp) x h
    · rw [if_neg hc] at hx
      refine ih (acc ++ [c]) ?_ x hx
      intro hm
      rcases List.mem_append.mp hm with h | h
      · exact hacc h
      · exact hc (List.mem_singleton.mp h).symm

theorem splitLines_no_nl (t : List Char) : ∀ x ∈ splitLines t, '\n' ∉ x := by
  intro x hx
  simp only [splitLines] at hx
  split_ifs at hx with h
  · exact splitLinesAux_no_nl t [] (by simp) x ((List.dropLast_subset _) hx)
  · exact splitLinesAux_no_nl t [] (by simp) x hx

theorem splitLinesAux_append (l : List Char) :
    ∀ (cs acc : List Char), '\n' ∉ l →
      splitLinesAux (l ++ cs) acc = splitLinesAux cs (acc ++ l) := by
  induction l with
  | nil => intro cs acc _; simp
  | cons c rest ih =>
    intro cs acc h
    have hc : c ≠ '\n' := fun e => h (by simp [e])
    simp only [List.cons_append, splitLinesAux, if_neg hc, List.append_eq]
    rw [ih cs (acc ++ [c]) (fun hm => h (List.mem_cons_of_mem _ hm))]
    simp

theorem splitLinesAux_join (ls : List (List Char)) (hne : ls ≠ [])
    (hnl : ∀ l ∈ ls, '\n' ∉ l) : splitLinesAux (joinLines ls) [] = ls := by
  induction ls with
  | nil => cases hne rfl
  | cons l rest ih =>
    cases rest with
    | nil =>
      simp only [joinLines]
      have := splitLinesAux_append l [] [] (hnl l (by simp))
      simpa using this
    | cons l2 rest2 =>
      simp only [joinLines]
      rw [splitLinesAux_append l _ [] (hnl l (by simp))]
      have h1 : ([] : List Char) ++ l = l := by simp
      rw [h1]
      simp [splitLinesAux, ih (by simp) (fun x hx => hnl x (List.mem_cons_of_mem _ hx))]

theorem splitLines_join_mem (ls : List (List Char))
    (hnl : ∀ l ∈ ls, '\n' ∉ l) : ∀ x ∈ splitLines (joinLines ls), x ∈ ls := by
  rcases eq_or_ne ls [] with rfl | hne
  · intro x hx
    simp [splitLines, joinLines, splitLinesAux] at hx
  · intro x hx
    simp only [splitLines] at hx
    rw [splitLinesAux_join ls hne hnl] at hx
    split_ifs at hx
    · exact (List.dropLast_subset ls) hx
    · exact hx

theorem findFence_eq_none (ls : List (List Char))
    (h : ∀ l ∈ ls, pyStrip l ≠ CODE_START_LINE) : findFence ls = none := by
  induction ls with
  | nil => rfl
  | cons l rest ih =>
    simp only [findFence, if_neg (h l (by simp))]
    rw [ih (fun x hx => h x (List.mem_cons_of_mem _ hx))]
    rfl

theorem findFence_take (ls : List (List Char)) :
    ∀ i, findFence ls = some i → ∀ l ∈ ls.take i, pyStrip l ≠ CODE_START_LINE := by
  induction ls with
  | nil => intro i h; simp [findFence] at h
  | cons l rest ih =>
    intro i h x hx
    simp only [findFence] at h
    split_ifs at h with hf
    · obtain rfl : (0 : Nat) = i := by injection h
      simp at hx
    · cases hr : findFence rest with
      | none => rw [hr] at h; simp at h
      | some j =>
        rw [hr] at h
        simp only [Option.map_some', Option.some.injEq] at h
        subst h
        rcases List.mem_cons.mp (by simpa [List.take_succ_cons] using hx) with h | h
        · exact h ▸ hf
        · exact ih j hr x h

/-- Applying `prefix_before_code_fence` twice is the same as applying
it once: the retained prefix contains no fence line, so a second scan
finds nothing to cut. -/
theorem prefix_before_code_fence_idem (t : List Char) :
    prefix_before_code_fence (prefix_before_code_fence t)
      = prefix_before_code_fence t := by
  cases hf : findFence (_split_lines t) with
  | none =>
    have hA : prefix_before_code_fence t = t := by
      simp only [prefix_before_code_fence]
      rw [hf]
    rw [hA]
    exact hA
  | some i =>
    have hA : prefix_before_code_fence t = joinLines ((_split_lines t).take i) := by
      simp only [prefix_before_code_fence]
      rw [hf]
    have ht : ¬ t.isEmpty := by
      intro he
      simp [_split_lines, he, findFence] at hf
    have hlines : _split_lines t = splitLines t := by
      simp [_split_lines, ht]
    have hnl : ∀ l ∈ (_split_lines t).take i, '\n' ∉ l := by
      intro l hl
      exact splitLines_no_nl t l (hlines ▸ List.mem_of_mem_take hl)
    have hnf : ∀ l ∈ (_split_lines t).take i, pyStrip l ≠ CODE_START_LINE :=
      findFence_take _ i hf
    have hnone :
        findFence (_split_lines (joinLines ((_split_lines t).take i))) = none := by
      apply findFence_eq_none
      intro l hl
      by_cases hje : (joinLines ((_split_lines t).take i)).isEmpty
      · have hXe : joinLines ((_split_lines t).take i) = [] :=
          List.isEmpty_iff.mp hje
        rw [hXe] at hl
        simp [_split_lines] at hl
      · rw [_split_lines, if_neg hje] at hl
        exact hnf l (splitLines_join_mem _ hnl l hl)
    rw [hA]
    simp only [prefix_before_code_fence]
    rw [hnone]

/-- C7: in every state before `CodeContent`, the decision of
`decide_next` is computed from the fence-free prefix alone: it is
unchanged under `prefix_before_code_fence`, and any two texts agreeing
on that prefix receive identical decisions; the `CodeContent` decision,
by contrast, inspects the full text (witnessed by a fenced example). -/
theorem claim_C7 (s : State)
    (hs : s = State.START ∨ s = State.THOUGHT_CONTENT ∨ s = State.ACTION_OPEN ∨
      s = State.ACTION_CONTENT ∨ s = State.CODE_FENCE_START) :
    (∀ t : List Char, decide_next s t = decide_next s (prefix_before_code_fence t)) ∧
    (∀ t₁ t₂ : List Char,
      prefix_before_code_fence t₁ = prefix_before_code_fence t₂ →
      decide_next s t₁ = decide_next s t₂) ∧
    decide_next State.CODE_CONTENT "```python\nx\n```".toList ≠
      decide_next State.CODE_CONTENT
        (prefix_before_code_fence "```python\nx\n```".toList) := by
  have factor : ∀ t₁ t₂ : List Char,
      prefix_before_code_fence t₁ = prefix_before_code_fence t₂ →
      decide_next s t₁ = decide_next s t₂ := by
    intro t₁ t₂ h
    rcases hs with rfl | rfl | rfl | rfl | rfl <;> simp [decide_next, h]
  refine ⟨fun t => factor t (prefix_before_code_fence t)
    (prefix_before_code_fence_idem t).symm, factor, by decide⟩

theorem claim_C7_witness :
    (State.START = State.START ∨ State.START = State.THOUGHT_CONTENT ∨
      State.START = State.ACTION_OPEN ∨ State.START = State.ACTION_CONTENT ∨
      State.START = State.CODE_FENCE_START) ∧
    decide_next State.START "abc".toList
      = decide_next State.START (prefix_before_code_fence "abc".toList) :=
  ⟨Or.inl rfl, (claim_C7 State.START (Or.inl rfl)).1 "abc".toList⟩

/-!  ## Behaviour in and around `DONE` (claim C2) -/

set_option maxRecDepth 100000 in
/-- C2, counterexample to the claim as stated: with a collaborator
tokenizer whose newline encodes to the two tokens `[5, 6]`, the call
that completes the code fence transitions to `DONE` and returns with
token `6` still queued; the next call — made with the state already at
`DONE` — forces queued token `6`, not the end-of-sequence id `128`,
whose score entry stays `-inf`. -/
theorem claim_C2_counterexample :
    enforcerCall twoNlTok ⟨State.CODE_CONTENT, some 0, []⟩
        ["```python\nprint(1)\n```".toList.map Char.toNat] [freeRow]
      = .ok (⟨State.DONE, some 0, [6]⟩,
          [(List.replicate 129 (⊥ : WithBot ℚ)).set 5 (0 : WithBot ℚ)]) ∧
    enforcerCall twoNlTok ⟨State.DONE, some 0, [6]⟩
        ["```python\nprint(1)\n```".toList.map Char.toNat ++ [5]] [freeRow]
      = .ok (⟨State.DONE, some 0, []⟩,
          [(List.replicate 129 (⊥ : WithBot ℚ)).set 6 (0 : WithBot ℚ)]) ∧
    ((List.replicate 129 (⊥ : WithBot ℚ)).set 6 (0 : WithBot ℚ)).getD 128 ⊥
      = (⊥ : WithBot ℚ) :=
  ⟨by decide, by decide, by decide⟩

/-- C2 (amended): once the state is `DONE` and the pending force queue
has drained (immediate whenever the trailing forced newline encodes to
at most one token), every call forces the end-of-sequence id into the
score buffer — the buffer comes back with entry `eos` set to `0` and
all others `-inf` — and leaves the state at `DONE` with an empty
queue, so the same holds for all subsequent calls. -/
theorem claim_C2 (tok : Tok) (es : EnforcerState) (input_ids : List (List Nat))
    (scores : Scores)
    (hstate : es.state = State.DONE) (hq : es.force_queue = [])
    (hids : input_ids.length = 1) (hsc : scores.length = 1)
    (heos : tok.eos < (scores.headD []).length) :
    enforcerCall tok es input_ids scores
      = .ok (⟨State.DONE, some (es.start_pos.getD (input_ids.headD []).length), []⟩,
          [((scores.headD []).map (fun _ => (⊥ : WithBot ℚ))).set tok.eos
            (0 : WithBot ℚ)]) := by
  obtain ⟨row, rfl⟩ := List.length_eq_one.mp hsc
  have heos' : tok.eos < row.length := by simpa using heos
  have hcall : ∀ gt : List Char,
      callLoop tok 10 State.DONE [] gt [row]
        = some (.ok (State.DONE, ([],
            [(row.map (fun _ => (⊥ : WithBot ℚ))).set tok.eos (0 : WithBot ℚ)]))) := by
    intro gt
    rw [show (10 : ℕ) = 9 + 1 from rfl, callLoop_nil]
    rw [decide_next_done]
    rw [if_neg (by simp)]
    rw [if_pos rfl]
    have hse : setEos [row] tok.eos = [row.set tok.eos (⊥ : WithBot ℚ)] := by
      simp [setEos]
    rw [hse]
    have hforce : force_token [row.set tok.eos (⊥ : WithBot ℚ)] (tok.eos : ℤ)
        = .ok [(row.map (fun _ => (⊥ : WithBot ℚ))).set tok.eos (0 : WithBot ℚ)] := by
      simp only [force_token]
      rw [if_neg (by simp)]
      rw [if_pos ⟨Int.ofNat_nonneg _, by simpa using heos'⟩]
      simp [List.map_set, List.set_set]
    rw [hforce]
    simp [Except.map]
  simp only [enforcerCall]
  rw [if_neg (by simp [hids])]
  rw [hstate, hq, hcall]
  rfl

set_option maxRecDepth 40000 in
theorem claim_C2_witness :
    enforcerCall charTok ⟨State.DONE, some 0, []⟩ [[120]] [freeRow]
      = .ok (⟨State.DONE, some 0, []⟩,
          [(freeRow.map (fun _ => (⊥ : WithBot ℚ))).set 128 (0 : WithBot ℚ)]) :=
  claim_C2 charTok ⟨State.DONE, some 0, []⟩ [[120]] [freeRow] rfl rfl rfl rfl
    (by decide)

/-!  ## The end-of-sequence suppression invariant (claim C6) -/

theorem getD_set_bot (l : List (WithBot ℚ)) (j : Nat) :
    (l.set j (⊥ : WithBot ℚ)).getD j ⊥ = (⊥ : WithBot ℚ) := by
  rw [List.getD_eq_getElem?_getD, List.getElem?_set_self']
  cases l[j]? <;> simp

theorem getD_set_ne_val (l : List (WithBot ℚ)) (i j : Nat) (v : WithBot ℚ)
    (h : j ≠ i) :
    (l.set i v).getD j ⊥ = l.getD j ⊥ := by
  rw [List.getD_eq_getElem?_getD, List.getElem?_set_ne (Ne.symm h),
    ← List.getD_eq_getElem?_getD]

theorem setEos_headD_getD (sc : Scores) (j : Nat) :
    ((setEos sc j).headD []).getD j ⊥ = (⊥ : WithBot ℚ) := by
  cases sc with
  | nil => simp [setEos]
  | cons a l =>
    have : setEos (a :: l) j = (a.set j (⊥ : WithBot ℚ)) :: l := by
      simp [setEos]
    rw [this]
    exact getD_set_bot a j

theorem force_token_ok (sc : Scores) (tid : ℤ) (s : Scores)
    (h : force_token sc tid = .ok s) :
    s = [((sc.headD []).map (fun _ => (⊥ : WithBot ℚ))).set tid.toNat (0 : WithBot ℚ)]
      ∧ 0 ≤ tid ∧ tid < ((sc.headD []).length : ℤ) ∧ sc.length = 1 := by
  unfold force_token at h
  split_ifs at h with h1
  simp only [] at h
  split_ifs at h with h2
  exact ⟨(Except.ok.inj h).symm, h2.1, h2.2, by omega⟩

theorem callLoop_eos (tok : Tok) (henc : ∀ s, tok.eos ∉ tok.encode s) :
    ∀ (fuel : Nat) (st : State) (q : List Nat) (t : List Char) (sc : Scores)
      (st' : State) (q' : List Nat) (sc' : Scores),
      tok.eos ∉ q →
      callLoop tok fuel st q t sc = some (.ok (st', q', sc')) →
      ((sc'.headD []).getD tok.eos ⊥ = (⊥ : WithBot ℚ)) ∨
      (st' = State.DONE ∧ (sc'.headD []).getD tok.eos ⊥ = (0 : WithBot ℚ) ∧
        ∀ j, j ≠ tok.eos → (sc'.headD []).getD j ⊥ = (⊥ : WithBot ℚ)) := by
  intro fuel
  induction fuel with
  | zero => intro st q t sc st' q' sc' hq h; simp [callLoop] at h
  | succ n ih =>
    intro st q t sc st' q' sc' hq h
    cases q with
    | cons tk rest =>
      rw [callLoop_cons] at h
      have htk : tk ≠ tok.eos := fun e => hq (e ▸ List.mem_cons_self tk rest)
      cases hft : force_token (setEos sc tok.eos) (tk : ℤ) with
      | ok s =>
        rw [hft] at h
        simp only [Except.map, Option.some.injEq, Except.ok.injEq,
          Prod.mk.injEq] at h
        obtain ⟨-, -, hs⟩ := h
        obtain ⟨hshape, -, -, -⟩ := force_token_ok _ _ _ hft
        subst hs
        rw [hshape]
        left
        simp only [List.headD_cons]
        exact getD_const_set_ne _ _ _ _ (by simpa using (Ne.symm htk))
      | error e => rw [hft] at h; simp [Except.map] at h
    | nil =>
      rw [callLoop_nil] at h
      split_ifs at h with hne hdone
      · refine ih _ _ t (setEos sc tok.eos) st' q' sc' ?_ h
        cases hforce : (decide_next st t).force_text with
        | none => simp
        | some ft =>
          by_cases hfe : ft.isEmpty
          · simp [hfe]
          · simp only [hfe, if_false, Bool.false_eq_true]
            exact henc ft
      · cases hft : force_token (setEos sc tok.eos) (tok.eos : ℤ) with
        | ok s =>
          rw [hft] at h
          simp only [Except.map, Option.some.injEq, Except.ok.injEq,
            Prod.mk.injEq] at h
          obtain ⟨hst, -, hs⟩ := h
          obtain ⟨hshape, -, hlt, -⟩ := force_token_ok _ _ _ hft
          subst hs
          rw [hshape]
          right
          refine ⟨hst ▸ hdone, ?_, ?_⟩
          · simp only [List.headD_cons, Int.toNat_ofNat]
            refine getD_set_self_lt _ _ _ ?_
            simp only [List.length_map]
            exact_mod_cast hlt
          · intro j hj
            simp only [List.headD_cons, Int.toNat_ofNat]
            exact getD_const_set_ne _ _ _ _ hj
        | error e => rw [hft] at h; simp [Except.map] at h
      · simp only [Option.some.injEq, Except.ok.injEq, Prod.mk.injEq] at h
        obtain ⟨-, -, hs⟩ := h
        subst hs
        left
        exact setEos_headD_getD sc tok.eos

/-- C6: whenever the collaborator tokenizer never encodes the
end-of-sequence id and the pending force queue does not hold it, an
orchestrator call returns a buffer whose end-of-sequence entry is
`-inf` — except when the state is `Done` and the end-of-sequence id is
the token being forced, in which case that entry is `0` and every
other entry is `-inf` (the buffer's maximum is at the id). -/
theorem claim_C6 (tok : Tok) (es : EnforcerState) (ids : List (List Nat))
    (scores : Scores) (es' : EnforcerState) (sc' : Scores)
    (henc : ∀ s, tok.eos ∉ tok.encode s)
    (hq : tok.eos ∉ es.force_queue)
    (h : enforcerCall tok es ids scores = .ok (es', sc')) :
    ((sc'.headD []).getD tok.eos ⊥ = (⊥ : WithBot ℚ)) ∨
    (es'.state = State.DONE ∧ (sc'.headD []).getD tok.eos ⊥ = (0 : WithBot ℚ) ∧
      ∀ j, j ≠ tok.eos → (sc'.headD []).getD j ⊥ = (⊥ : WithBot ℚ)) := by
  simp only [enforcerCall] at h
  split_ifs at h with hb
  split at h
  next => simp at h
  next => simp at h
  next st3 q3 sc3 heq =>
    simp only [Except.ok.injEq, Prod.mk.injEq] at h
    obtain ⟨h1, h2⟩ := h
    subst h2
    subst h1
    exact callLoop_eos tok henc 10 es.state es.force_queue _ scores st3 q3 sc3 hq heq

set_option maxRecDepth 40000 in
theorem claim_C6_witness :
    (([(List.replicate 129 (⊥ : WithBot ℚ)).set 60 (0 : WithBot ℚ)].headD []).getD
        asciiTok.eos ⊥ = (⊥ : WithBot ℚ)) ∨
    ((⟨State.THOUGHT_CONTENT, some 0,
        "thought>".toList.map (fun c => c.toNat % 128)⟩ : EnforcerState).state
        = State.DONE ∧
      ([(List.replicate 129 (⊥ : WithBot ℚ)).set 60 (0 : WithBot ℚ)].headD []).getD
        asciiTok.eos ⊥ = (0 : WithBot ℚ) ∧
      ∀ j, j ≠ asciiTok.eos →
        ([(List.replicate 129 (⊥ : WithBot ℚ)).set 60 (0 : WithBot ℚ)].headD []).getD
          j ⊥ = (⊥ : WithBot ℚ)) :=
  claim_C6 asciiTok initEnforcer [[]] [freeRow]
    ⟨State.THOUGHT_CONTENT, some 0, "thought>".toList.map (fun c => c.toNat % 128)⟩
    [(List.replicate 129 (⊥ : WithBot ℚ)).set 60 (0 : WithBot ℚ)]
    (by
      intro s hm
      simp [asciiTok] at hm
      obtain ⟨c, -, hc⟩ := hm
      omega)
    (by simp [initEnforcer])
    (by decide)

/-!  ## The frame claim: stable non-`DONE` calls leave the buffer alone -/

/-- C9: on a call with an empty force queue where the transition
policy proposes no state change and the state is not `Done`, the
returned buffer is the input buffer with only the end-of-sequence
entry overwritten (to `-inf`); every other entry is unchanged. -/
theorem claim_C9 (tok : Tok) (es : EnforcerState) (input_ids : List (List Nat))
    (scores : Scores)
    (hids : input_ids.length = 1) (hsc : scores.length = 1)
    (hq : es.force_queue = [])
    (hns : (decide_next es.state
        (genText tok (es.start_pos.getD (input_ids.headD []).length) input_ids)).new_state
          = es.state)
    (hnd : es.state ≠ State.DONE) :
    enforcerCall tok es input_ids scores
      = .ok (⟨es.state, some (es.start_pos.getD (input_ids.headD []).length), []⟩,
          [(scores.headD []).set tok.eos (⊥ : WithBot ℚ)]) ∧
    (∀ j, j ≠ tok.eos →
      ((scores.headD []).set tok.eos (⊥ : WithBot ℚ)).getD j ⊥
        = (scores.headD []).getD j ⊥) := by
  obtain ⟨row, rfl⟩ := List.length_eq_one.mp hsc
  constructor
  · simp only [enforcerCall]
    rw [if_neg (by simp [hids])]
    rw [hq]
    rw [show (10 : ℕ) = 9 + 1 from rfl, callLoop_nil]
    rw [if_neg (not_not_intro hns)]
    rw [if_neg hnd]
    have hse : setEos [row] tok.eos = [row.set tok.eos (⊥ : WithBot ℚ)] := by
      simp [setEos]
    rw [hse]
    rfl
  · intro j hj
    exact getD_set_ne_val _ _ _ _ hj

set_option maxRecDepth 40000 in
theorem claim_C9_witness :
    enforcerCall charTok ⟨State.THOUGHT_CONTENT, some 0, []⟩ [[120]] [freeRow]
      = .ok (⟨State.THOUGHT_CONTENT, some 0, []⟩,
          [freeRow.set 128 (⊥ : WithBot ℚ)]) :=
  (claim_C9 charTok ⟨State.THOUGHT_CONTENT, some 0, []⟩ [[120]] [freeRow]
    rfl rfl rfl (by decide) (by decide)).1

/-!  ## The end-to-end scenario (claim C1) -/

set_option maxRecDepth 100000 in
/-- C1, counterexample to the claim as stated: a generation loop that
accepts all forced tokens verbatim and whose model-chosen tokens are
exactly the claimed injections — `x` for the thought body, `x` for the
action body, `print(1)` for the code body — never completes a
transcript: the enforcer forces only the opening markers, so the
closing thought tag is never produced, no transition ever fires, and
the run stalls with its injections exhausted instead of ending in the
claimed transcript. -/
theorem claim_C1_counterexample :
    runLoop charTok freeRow 100 initEnforcer []
        ("xxprint(1)".toList.map Char.toNat) = none := by
  decide

set_option maxRecDepth 400000 in
set_option maxHeartbeats 2000000 in
/-- C1 (amended): a generation loop upholding the calling contract —
one enforcer call per decoding step, sampling from the returned buffer
(accepting every forced token verbatim), appending the chosen token to
history — whose model-chosen tokens spell `x</thought>` inside the
thought block, `x</action>` inside the action block and
`print(1)\n```` ``` ```` inside the code block (the closing tags and
the closing fence are model-chosen, not forced) produces exactly the
transcript `<thought>x</thought>\n<action>x</action>\n` followed by
the fenced `print(1)` block, a trailing newline and the
end-of-sequence token, with no extraneous tokens; and the only texts
the policy ever forces are the opening thought tag, the newline plus
opening action tag, the newline plus opening code fence, and the
trailing newline. -/
theorem claim_C1 :
    runLoop charTok freeRow 100 initEnforcer []
        (("x</thought>" ++ "x</action>" ++ "print(1)\n```").toList.map Char.toNat)
      = some
        ("<thought>x</thought>\n<action>x</action>\n```python\nprint(1)\n```\n".toList.map
            Char.toNat ++ [charTok.eos]) ∧
    (∀ (s : State) (t : List Char),
      (decide_next s t).force_text = none ∨
      (decide_next s t).force_text = some "<thought>".toList ∨
      (decide_next s t).force_text = some "\n<action>".toList ∨
      (decide_next s t).force_text = some ('\n' :: CODE_START) ∨
      (decide_next s t).force_text = some "\n".toList) := by
  constructor
  · decide
  · intro s t
    cases s <;> simp [decide_next] <;> split_ifs <;> simp

/-!  ## Test vectors from the specification -/

theorem prefix_before_code_fence_vector :
    prefix_before_code_fence "foo\n```python\nbar\n```".toList = "foo".toList := by
  decide

theorem code_block_status_vectors :
    code_block_status "```python\n\n```".toList = (false, true) ∧
    code_block_status "```python\nprint(1)\n```".toList = (true, true) ∧
    code_block_status "```python\nprint(1)".toList = (true, false) := by
  refine ⟨by decide, by decide, by decide⟩

theorem initEnforcer_state : initEnforcer.state = State.START := rfl

end Constrain
